import Mathlib

/-!
Verification of the fMRI group-analysis pipeline (two scripts):
`groupanalysis (2).py` (voxel-wise one-sample t-test and t-to-z conversion)
and `prepare.py` (FLIRT registration driver and manifest writer).

Modelling choices:
* Finite floating-point values are modelled by `ℚ`; the IEEE special values
  that the code manipulates (`inf`, `-inf`, `nan`, produced by division with
  `np.errstate(divide='ignore', invalid='ignore')` and consumed by
  `np.nan_to_num`) are modelled by the four-constructor type `FP`.
* A volume is its flattened voxel data, a `List ℚ`; `np.stack` followed by
  `reshape(-1, num_subjects)` is modelled by `reshaped`, which produces one
  row of subject values per voxel.
* The external statistics library (`np.sqrt`, `scipy.stats.t.sf`,
  `scipy.stats.norm.isf`) is out of scope for the repository; those three
  functions are parameters of the embedding, and theorems constrain them
  through the predicates `SqrtOK`, `TsfOK`, `IsfOK`, which record standard
  analytic facts about the square root, the Student-t survival function and
  the inverse standard-normal survival function.
* File-system and subprocess effects in `prepare.py` are modelled by oracle
  parameters (`g` for `glob.glob`, `pathEx` for `os.path.exists`, `runOk`
  for the exit status of `subprocess.run`); the embedding additionally
  returns the list of external commands invoked, in order, so that
  "the external tool is not re-invoked" is expressible.
-/

/-- IEEE-style value domain: a finite value (modelled exactly by a rational),
positive infinity, negative infinity, or NaN. -/
inductive FP where
  | finite : ℚ → FP
  | pinf : FP
  | ninf : FP
  | nan : FP
deriving DecidableEq

/-- `np.sign` on a finite value. -/
def qsign (q : ℚ) : ℚ := if q < 0 then -1 else if q = 0 then 0 else 1

/-- IEEE multiplication on `FP` (the cases used by the script:
`np.sign(t) * z` where `z` may be infinite, and scaling by the scalar 2).
`0 * ±inf = nan`, and `nan` is absorbing. -/
def FP.mul : FP → FP → FP
  | FP.nan, _ => FP.nan
  | _, FP.nan => FP.nan
  | FP.finite a, FP.finite b => FP.finite (a * b)
  | FP.finite a, FP.pinf => if 0 < a then FP.pinf else if a < 0 then FP.ninf else FP.nan
  | FP.pinf, FP.finite b => if 0 < b then FP.pinf else if b < 0 then FP.ninf else FP.nan
  | FP.finite a, FP.ninf => if 0 < a then FP.ninf else if a < 0 then FP.pinf else FP.nan
  | FP.ninf, FP.finite b => if 0 < b then FP.ninf else if b < 0 then FP.pinf else FP.nan
  | FP.pinf, FP.pinf => FP.pinf
  | FP.pinf, FP.ninf => FP.ninf
  | FP.ninf, FP.pinf => FP.ninf
  | FP.ninf, FP.ninf => FP.pinf

/-- `np.sign` on `FP` (`np.sign(nan) = nan`). -/
def FP.sign : FP → FP
  | FP.finite a => FP.finite (qsign a)
  | FP.pinf => FP.finite 1
  | FP.ninf => FP.finite (-1)
  | FP.nan => FP.nan

/-- `np.abs` on `FP`. -/
def FP.fabs : FP → FP
  | FP.finite a => FP.finite |a|
  | FP.pinf => FP.pinf
  | FP.ninf => FP.pinf
  | FP.nan => FP.nan

/-- `np.nan_to_num(x, nan=0, posinf=0, neginf=0)`: every non-finite value is
replaced by `0`; finite values pass through. -/
def nanToNumFP : FP → FP
  | FP.finite q => FP.finite q
  | _ => FP.finite 0

/-- IEEE division of two finite values, as performed under
`np.errstate(divide='ignore', invalid='ignore')`: division by zero yields a
signed infinity, `0/0` yields NaN, and otherwise the exact quotient. -/
def qdivFP (a b : ℚ) : FP :=
  if b = 0 then (if a = 0 then FP.nan else if 0 < a then FP.pinf else FP.ninf)
  else FP.finite (a / b)

/-- `np.mean(xs)` for a row of subject values (source: `np.mean(reshaped_data, axis=1)`). -/
def vmean (xs : List ℚ) : ℚ := xs.sum / (xs.length : ℚ)

/-- The quantity under the square root in `np.std(..., ddof=1)`:
sum of squared deviations from the mean, divided by `n - 1`. -/
def vvar (xs : List ℚ) : ℚ :=
  ((xs.map (fun x => (x - vmean xs) ^ 2)).sum) / ((xs.length : ℚ) - 1)

/-- `np.std(xs, ddof=1)` (source: `stds = np.std(reshaped_data, axis=1, ddof=1)`),
with the library square root passed as the parameter `sq`. -/
def vstd (sq : ℚ → ℚ) (xs : List ℚ) : ℚ := sq (vvar xs)

/-- `se = stds / np.sqrt(num_subjects)`. -/
def vse (sq : ℚ → ℚ) (K : ℕ) (xs : List ℚ) : ℚ := vstd sq xs / sq (K : ℚ)

/-- Per-voxel t-statistic:
`t_values = means / se` under `errstate(ignore)`, then
`t_values = np.nan_to_num(t_values, nan=0, posinf=0, neginf=0)`. -/
def tVox (sq : ℚ → ℚ) (K : ℕ) (xs : List ℚ) : FP :=
  nanToNumFP (qdivFP (vmean xs) (vse sq K xs))

/-- Per-voxel t-to-z conversion (source lines):
`p_values = stats.t.sf(np.abs(t_values), df) * 2`,
`z_values = stats.norm.isf(p_values)`,
`z_values_signed = np.sign(t_values) * z_values`,
`z_values_signed = np.nan_to_num(z_values_signed, nan=0, posinf=0, neginf=0)`.
`tsf` and `isf` are the external library functions. -/
def zVox (tsf : FP → ℤ → FP) (isf : FP → FP) (df : ℤ) (t : FP) : FP :=
  nanToNumFP (FP.mul (FP.sign t) (isf (FP.mul (tsf (FP.fabs t) df) (FP.finite 2))))

/-- `np.stack(data_list, axis=-1)` followed by `reshape(-1, num_subjects)`:
one row per voxel, each row listing that voxel's value in every subject
volume, voxels in index order. -/
def reshaped (volumes : List (List ℚ)) : List (List ℚ) :=
  (List.range (volumes.headD []).length).map (fun v => volumes.map (fun vol => vol.getD v 0))

/-- The t-statistic array (`t_stat_data`, flattened). -/
def tstats (sq : ℚ → ℚ) (volumes : List (List ℚ)) : List FP :=
  (reshaped volumes).map (tVox sq volumes.length)

/-- The z-statistic array (`z_stat_data`, flattened). -/
def zstats (sq : ℚ → ℚ) (tsf : FP → ℤ → FP) (isf : FP → FP)
    (volumes : List (List ℚ)) : List FP :=
  (tstats sq volumes).map (zVox tsf isf ((volumes.length : ℤ) - 1))

/-- `perform_group_analysis(images)`: stacks the subject volumes, computes the
per-voxel t-statistics, converts them to signed z-statistics, and returns
`(t_stat_data, z_stat_data, df)` with `df = num_subjects - 1`.
`np.stack` raises (hence no value is returned) when the list is empty or the
volumes do not all share one shape; that is the `none` case. -/
def perform_group_analysis (sq : ℚ → ℚ) (tsf : FP → ℤ → FP) (isf : FP → FP)
    (volumes : List (List ℚ)) : Option (List FP × List FP × ℤ) :=
  if volumes.isEmpty then none
  else if volumes.all (fun vol => vol.length = (volumes.headD []).length) then
    some (tstats sq volumes, zstats sq tsf isf volumes, (volumes.length : ℤ) - 1)
  else none

/-- Facts about `np.sqrt` used by the development: the square root of zero is
zero and square roots of positive numbers are positive. -/
def SqrtOK (sq : ℚ → ℚ) : Prop :=
  sq 0 = 0 ∧ ∀ q : ℚ, 0 < q → 0 < sq q

/-- Facts about `scipy.stats.t.sf` used by the development: for `df ≥ 1` and a
nonnegative argument `q` the survival function is a finite value `r` with
`0 < r ≤ 1/2`, and `r = 1/2` exactly when `q = 0`. -/
def TsfOK (tsf : FP → ℤ → FP) : Prop :=
  ∀ (df : ℤ) (q : ℚ), 1 ≤ df → 0 ≤ q →
    ∃ r : ℚ, tsf (FP.finite q) df = FP.finite r ∧ 0 < r ∧ r ≤ 1 / 2 ∧ (r = 1 / 2 ↔ q = 0)

/-- Facts about `scipy.stats.norm.isf` used by the development: on `(0,1)` it
is finite, positive exactly below `1/2` and negative exactly above `1/2`, and
`isf 1 = -inf`. -/
def IsfOK (isf : FP → FP) : Prop :=
  (∀ p : ℚ, 0 < p → p < 1 →
    ∃ z : ℚ, isf (FP.finite p) = FP.finite z ∧ (0 < z ↔ p < 1 / 2) ∧ (z < 0 ↔ 1 / 2 < p)) ∧
  isf (FP.finite 1) = FP.ninf

/-- Concrete square root satisfying `SqrtOK`, used to instantiate witnesses:
exact on the perfect squares that appear in the concrete data. -/
def sqrtW : ℚ → ℚ := fun q => if q = 0 then 0 else if q = 4 then 2 else 1

/-- Concrete Student-t survival function satisfying `TsfOK`, used to
instantiate witnesses: strictly decreasing from `1/2` on `[0, ∞)`. -/
def tsfW : FP → ℤ → FP := fun x _ =>
  match x with
  | FP.finite q => FP.finite (1 / (2 * (1 + |q|)))
  | _ => FP.nan

/-- Concrete inverse standard-normal survival function satisfying `IsfOK`,
used to instantiate witnesses: affine and decreasing on `(0,1)`, with the
correct infinities at the endpoints. -/
def isfW : FP → FP := fun x =>
  match x with
  | FP.finite p =>
    if p ≤ 0 then FP.pinf else if 1 ≤ p then FP.ninf else FP.finite (1 - 2 * p)
  | _ => FP.nan

theorem sqrtW_ok : SqrtOK sqrtW := by
  constructor
  · simp [sqrtW]
  · intro q hq
    unfold sqrtW
    split
    · linarith
    · split <;> norm_num

theorem tsfW_ok : TsfOK tsfW := by
  intro df q _ hq
  refine ⟨1 / (2 * (1 + |q|)), rfl, ?_, ?_, ?_⟩
  · positivity
  · rw [div_le_div_iff₀ (by positivity) (by norm_num)]
    have := abs_nonneg q
    linarith
  · rw [abs_of_nonneg hq]
    constructor
    · intro h
      have h2 : (2 : ℚ) * (1 + q) = 2 := by
        field_simp at h
        linarith
      linarith
    · intro h
      subst h
      norm_num

theorem isfW_ok : IsfOK isfW := by
  constructor
  · intro p hp0 hp1
    refine ⟨1 - 2 * p, ?_, ?_, ?_⟩
    · simp only [isfW]
      rw [if_neg (by linarith), if_neg (by linarith)]
    · constructor <;> intro h <;> linarith
    · constructor <;> intro h <;> linarith
  · simp [isfW]

theorem FP.mul_comm (a b : FP) : FP.mul a b = FP.mul b a := by
  (cases a <;> cases b <;> simp [FP.mul])
  ring

theorem nanToNumFP_finite (x : FP) : ∃ q : ℚ, nanToNumFP x = FP.finite q := by
  cases x <;> exact ⟨_, rfl⟩

theorem nanToNumFP_mul_zero (x : FP) :
    nanToNumFP (FP.mul (FP.finite 0) x) = FP.finite 0 := by
  cases x <;> simp [FP.mul, nanToNumFP]

theorem nanToNumFP_qdivFP (a b : ℚ) :
    nanToNumFP (qdivFP a b) = FP.finite (if b = 0 then 0 else a / b) := by
  unfold qdivFP
  split
  · split
    · simp_all [nanToNumFP]
    · split <;> simp_all [nanToNumFP]
  · simp_all [nanToNumFP]

theorem qsign_of_neg {q : ℚ} (h : q < 0) : qsign q = -1 := if_pos h

theorem qsign_of_zero : qsign 0 = 0 := by simp [qsign]

theorem qsign_of_pos {q : ℚ} (h : 0 < q) : qsign q = 1 := by
  rw [qsign, if_neg (asymm h), if_neg h.ne']

theorem qsign_mul (a b : ℚ) : qsign (a * b) = qsign a * qsign b := by
  rcases lt_trichotomy a 0 with ha | rfl | ha <;>
    rcases lt_trichotomy b 0 with hb | rfl | hb
  · rw [qsign_of_neg ha, qsign_of_neg hb, qsign_of_pos (mul_pos_of_neg_of_neg ha hb)]
    norm_num
  · rw [mul_zero, qsign_of_zero]
    simp
  · rw [qsign_of_neg ha, qsign_of_pos hb, qsign_of_neg (mul_neg_of_neg_of_pos ha hb)]
    norm_num
  · rw [zero_mul, qsign_of_zero]
    simp
  · rw [zero_mul, qsign_of_zero]
    simp
  · rw [zero_mul, qsign_of_zero]
    simp
  · rw [qsign_of_pos ha, qsign_of_neg hb, qsign_of_neg (mul_neg_of_pos_of_neg ha hb)]
    norm_num
  · rw [mul_zero, qsign_of_zero]
    simp
  · rw [qsign_of_pos ha, qsign_of_pos hb, qsign_of_pos (mul_pos ha hb)]
    norm_num

theorem perform_eq_some_iff (sq : ℚ → ℚ) (tsf : FP → ℤ → FP) (isf : FP → FP)
    (volumes : List (List ℚ)) (out : List FP × List FP × ℤ) :
    perform_group_analysis sq tsf isf volumes = some out ↔
      (volumes.isEmpty = false ∧
       volumes.all (fun vol => vol.length = (volumes.headD []).length) = true ∧
       out = (tstats sq volumes, zstats sq tsf isf volumes, (volumes.length : ℤ) - 1)) := by
  unfold perform_group_analysis
  cases h1 : volumes.isEmpty <;>
    cases h2 : volumes.all (fun vol => vol.length = (volumes.headD []).length) <;>
      simp [h1, h2, eq_comm]

theorem zip_self_map {α β : Type} (l : List α) (f : α → β) :
    l.zip (l.map f) = l.map (fun x => (x, f x)) := by
  induction l with
  | nil => rfl
  | cons a t ih => simp [ih]

theorem reshaped_row_length (volumes : List (List ℚ)) (r : List ℚ)
    (h : r ∈ reshaped volumes) : r.length = volumes.length := by
  unfold reshaped at h
  simp only [List.mem_map] at h
  obtain ⟨v, -, rfl⟩ := h
  simp

/-- Spec-side definition (4.2): "sample mean" over the K subject values. -/
def meanSpec (K : ℕ) (xs : List ℚ) : ℚ := xs.sum / (K : ℚ)

/-- Spec-side definition (4.2): "sample standard deviation (n-1 denominator)". -/
def sdSpec (sq : ℚ → ℚ) (K : ℕ) (xs : List ℚ) : ℚ :=
  sq ((xs.map (fun x => (x - meanSpec K xs) ^ 2)).sum / ((K : ℚ) - 1))

/-- Spec-side definition (4.2): "standard error = std/√K". -/
def seSpec (sq : ℚ → ℚ) (K : ℕ) (xs : List ℚ) : ℚ := sdSpec sq K xs / sq (K : ℚ)

/-- Spec-side definition (4.2): "t = mean/standard-error (0 where standard
error is 0, suppressing divide-by-zero/NaN/Inf)". -/
def tSpec (sq : ℚ → ℚ) (K : ℕ) (xs : List ℚ) : ℚ :=
  if seSpec sq K xs = 0 then 0 else meanSpec K xs / seSpec sq K xs

/-- Spec-side definition (claim C2): "converts the t-statistic t to
p = 2 * StudentT.sf(|t|, df) and z = NormalInverseSF(p), multiplies z by
sign(t), and replaces any NaN or infinite result by 0". -/
def zSpecFP (tsf : FP → ℤ → FP) (isf : FP → FP) (df : ℤ) (t : FP) : FP :=
  nanToNumFP (FP.mul (isf (FP.mul (FP.finite 2) (tsf (FP.fabs t) df))) (FP.sign t))

theorem tVox_eq_tSpec (sq : ℚ → ℚ) (K : ℕ) (xs : List ℚ) (hlen : xs.length = K) :
    tVox sq K xs = FP.finite (tSpec sq K xs) := by
  have hm : vmean xs = meanSpec K xs := by rw [vmean, meanSpec, hlen]
  have hv : vse sq K xs = seSpec sq K xs := by
    rw [vse, seSpec, vstd, sdSpec, vvar, hlen, hm]
  rw [tVox, nanToNumFP_qdivFP, tSpec, hm, hv]

theorem zVox_eq_zSpecFP (tsf : FP → ℤ → FP) (isf : FP → FP) (df : ℤ) (t : FP) :
    zVox tsf isf df t = zSpecFP tsf isf df t := by
  rw [zVox, zSpecFP, FP.mul_comm (FP.sign t), FP.mul_comm (tsf (FP.fabs t) df)]

theorem eval_main :
    perform_group_analysis sqrtW tsfW isfW [[5/4], [5/4], [5/4], [-(11/4)]] =
      some ([FP.finite (1/4)], [FP.finite (-(3/5))], 3) := by
  have hrow : reshaped [[5/4], [5/4], [5/4], [-(11/4)]] = [[(5:ℚ)/4, 5/4, 5/4, -(11/4)]] := by
    simp [reshaped, List.range_succ]
  have hmean : vmean [(5:ℚ)/4, 5/4, 5/4, -(11/4)] = 1/4 := by
    norm_num [vmean]
  have hvar : vvar [(5:ℚ)/4, 5/4, 5/4, -(11/4)] = 4 := by
    norm_num [vvar, hmean]
  have hse : vse sqrtW 4 [(5:ℚ)/4, 5/4, 5/4, -(11/4)] = 1 := by
    norm_num [vse, vstd, hvar, sqrtW]
  have ht : tVox sqrtW 4 [(5:ℚ)/4, 5/4, 5/4, -(11/4)] = FP.finite (1/4) := by
    rw [tVox, hmean, hse]
    norm_num [qdivFP, nanToNumFP]
  have hz : zVox tsfW isfW 3 (FP.finite (1/4)) = FP.finite (-(3/5)) := by
    have habs : FP.fabs (FP.finite (1/4)) = FP.finite (1/4) := by
      norm_num [FP.fabs, abs_of_pos]
    have htsf : tsfW (FP.finite (1/4)) 3 = FP.finite (2/5) := by
      rw [tsfW]
      norm_num [abs_of_pos]
    have hp : FP.mul (FP.finite (2/5)) (FP.finite 2) = FP.finite (4/5) := by
      norm_num [FP.mul]
    have hisf : isfW (FP.finite (4/5)) = FP.finite (-(3/5)) := by
      rw [isfW]
      norm_num
    have hsgn : FP.sign (FP.finite (1/4)) = FP.finite 1 := by
      norm_num [FP.sign, qsign]
    rw [zVox, habs, htsf, hp, hisf, hsgn]
    norm_num [FP.mul, nanToNumFP]
  rw [perform_eq_some_iff]
  refine ⟨by norm_num, by norm_num, ?_⟩
  rw [tstats, zstats, tstats, hrow]
  simp only [List.map_cons, List.map_nil, List.length_cons, List.length_nil]
  rw [show ((0:ℕ)+1+1+1+1 : ℕ) = 4 from rfl] 
  norm_num [ht, hz]

theorem map_congr_mem {α β : Type} {l : List α} {f g : α → β}
    (h : ∀ a ∈ l, f a = g a) : l.map f = l.map g := by
  induction l with
  | nil => rfl
  | cons a t ih => simp_all

/-- C2: for every voxel, the group analysis converts the t-statistic t to
p = 2 * StudentT.sf(|t|, df) and z = NormalInverseSF(p), multiplies z by
sign(t), and replaces any NaN or infinite result by 0; the returned
z-statistic array equals exactly this composition applied pointwise. -/
theorem claim_C2_z_composition (sq : ℚ → ℚ) (tsf : FP → ℤ → FP) (isf : FP → FP)
    (volumes : List (List ℚ)) (out : List FP × List FP × ℤ)
    (h : perform_group_analysis sq tsf isf volumes = some out) :
    out.2.1 = out.1.map (zSpecFP tsf isf out.2.2) := by
  rw [perform_eq_some_iff] at h
  obtain ⟨-, -, rfl⟩ := h
  simp only [zstats]
  exact map_congr_mem fun t _ => zVox_eq_zSpecFP tsf isf _ t

theorem claim_C2_witness :
    [FP.finite (-(3/5))] = [FP.finite (1/4)].map (zSpecFP tsfW isfW 3) :=
  claim_C2_z_composition sqrtW tsfW isfW _ _ eval_main

/-- C3: for every K ≥ 2 and every voxel, the group analysis computes
mean = sample mean, std = sample standard deviation (n-1 denominator),
standard error = std / sqrt(K), t = mean / standard error, with t set to 0
wherever the standard error is 0 (divide-by-zero/NaN/Inf suppressed to 0). -/
theorem claim_C3_t_formula (sq : ℚ → ℚ) (tsf : FP → ℤ → FP) (isf : FP → FP)
    (volumes : List (List ℚ)) (out : List FP × List FP × ℤ)
    (_hK : 2 ≤ volumes.length)
    (h : perform_group_analysis sq tsf isf volumes = some out) :
    out.1 = (reshaped volumes).map (fun xs => FP.finite (tSpec sq volumes.length xs)) := by
  rw [perform_eq_some_iff] at h
  obtain ⟨-, -, rfl⟩ := h
  simp only [tstats]
  exact map_congr_mem fun xs hxs =>
    tVox_eq_tSpec sq volumes.length xs (reshaped_row_length volumes xs hxs)

theorem claim_C3_witness :
    [FP.finite (1/4)] =
      (reshaped [[5/4], [5/4], [5/4], [-(11/4)]]).map
        (fun xs => FP.finite (tSpec sqrtW 4 xs)) :=
  claim_C3_t_formula sqrtW tsfW isfW _ _ (by norm_num) eval_main

/-- C6: for every list of K input volumes (on which the analysis returns),
the degrees of freedom returned equals K - 1. -/
theorem claim_C6_df (sq : ℚ → ℚ) (tsf : FP → ℤ → FP) (isf : FP → FP)
    (volumes : List (List ℚ)) (out : List FP × List FP × ℤ)
    (h : perform_group_analysis sq tsf isf volumes = some out) :
    out.2.2 = (volumes.length : ℤ) - 1 := by
  rw [perform_eq_some_iff] at h
  obtain ⟨-, -, rfl⟩ := h
  rfl

theorem claim_C6_witness :
    (3 : ℤ) = (([[5/4], [5/4], [5/4], [-(11/4)]] : List (List ℚ)).length : ℤ) - 1 :=
  claim_C6_df sqrtW tsfW isfW _ _ eval_main

/-- C10: for every input on which the analysis returns, every value in both
the t-statistic array and the z-statistic array is finite (never NaN or
±Inf): the final operation producing each array is nan_to_num. -/
theorem claim_C10_finite (sq : ℚ → ℚ) (tsf : FP → ℤ → FP) (isf : FP → FP)
    (volumes : List (List ℚ)) (out : List FP × List FP × ℤ)
    (h : perform_group_analysis sq tsf isf volumes = some out) :
    (∀ x ∈ out.1, ∃ q : ℚ, x = FP.finite q) ∧
    (∀ x ∈ out.2.1, ∃ q : ℚ, x = FP.finite q) := by
  rw [perform_eq_some_iff] at h
  obtain ⟨-, -, rfl⟩ := h
  constructor
  · intro x hx
    simp only [tstats, List.mem_map] at hx
    obtain ⟨xs, -, rfl⟩ := hx
    rw [tVox]
    exact nanToNumFP_finite _
  · intro x hx
    simp only [zstats, tstats, List.mem_map] at hx
    obtain ⟨xs, -, rfl⟩ := hx
    rw [zVox]
    exact nanToNumFP_finite _

theorem claim_C10_witness :
    (∀ x ∈ [FP.finite ((1:ℚ)/4)], ∃ q : ℚ, x = FP.finite q) ∧
    (∀ x ∈ [FP.finite (-((3:ℚ)/5))], ∃ q : ℚ, x = FP.finite q) :=
  claim_C10_finite sqrtW tsfW isfW _ _ eval_main

theorem map_const_replicate {α β : Type} (l : List α) (b : β) (f : α → β)
    (h : ∀ a ∈ l, f a = b) : l.map f = List.replicate l.length b := by
  induction l with
  | nil => rfl
  | cons a t ih => simp_all [List.replicate_succ]

theorem vmean_replicate (K : ℕ) (hK : 2 ≤ K) (c : ℚ) :
    vmean (List.replicate K c) = c := by
  have hKne : (K : ℚ) ≠ 0 := by
    have : (0:ℚ) < (K:ℚ) := by exact_mod_cast (by omega : 0 < K)
    exact this.ne'
  rw [vmean, List.sum_replicate, List.length_replicate, nsmul_eq_mul]
  field_simp

theorem vstd_replicate (sq : ℚ → ℚ) (hsq : sq 0 = 0) (K : ℕ) (hK : 2 ≤ K) (c : ℚ) :
    vstd sq (List.replicate K c) = 0 := by
  have hvar : vvar (List.replicate K c) = 0 := by
    rw [vvar, vmean_replicate K hK c, List.map_replicate]
    simp
  rw [vstd, hvar, hsq]

theorem tVox_replicate (sq : ℚ → ℚ) (hsq : sq 0 = 0) (K : ℕ) (hK : 2 ≤ K) (c : ℚ) :
    tVox sq K (List.replicate K c) = FP.finite 0 := by
  have hse : vse sq K (List.replicate K c) = 0 := by
    rw [vse, vstd_replicate sq hsq K hK c, zero_div]
  rw [tVox, hse, nanToNumFP_qdivFP, if_pos rfl]

theorem zVox_zero (tsf : FP → ℤ → FP) (isf : FP → FP) (df : ℤ) :
    zVox tsf isf df (FP.finite 0) = FP.finite 0 := by
  rw [zVox, FP.sign, qsign_of_zero]
  exact nanToNumFP_mul_zero _

/-- C4: for every K ≥ 2, if all K input volumes hold identical values
voxelwise, the sample standard deviation is 0 at every voxel and both the
t-statistic and the z-statistic outputs are 0 at every voxel. -/
theorem claim_C4_identical_volumes (sq : ℚ → ℚ) (tsf : FP → ℤ → FP) (isf : FP → FP)
    (K : ℕ) (w : List ℚ) (hK : 2 ≤ K) (hsq : sq 0 = 0) :
    (∀ r ∈ reshaped (List.replicate K w), vstd sq r = 0) ∧
    perform_group_analysis sq tsf isf (List.replicate K w) =
      some (List.replicate w.length (FP.finite 0),
            List.replicate w.length (FP.finite 0), (K : ℤ) - 1) := by
  obtain ⟨k, rfl⟩ : ∃ k, K = k + 2 := ⟨K - 2, by omega⟩
  have hhead : (List.replicate (k + 2) w).headD [] = w := by
    rw [List.replicate_succ, List.headD_cons]
  have hrows : ∀ r ∈ reshaped (List.replicate (k + 2) w),
      ∃ c : ℚ, r = List.replicate (k + 2) c := by
    intro r hr
    unfold reshaped at hr
    simp only [List.mem_map] at hr
    obtain ⟨v, -, rfl⟩ := hr
    exact ⟨w.getD v 0, by rw [List.map_replicate]⟩
  have hstd0 : ∀ r ∈ reshaped (List.replicate (k + 2) w), vstd sq r = 0 := by
    intro r hr
    obtain ⟨c, rfl⟩ := hrows r hr
    exact vstd_replicate sq hsq (k + 2) (by omega) c
  refine ⟨hstd0, ?_⟩
  rw [perform_eq_some_iff]
  refine ⟨?_, ?_, ?_⟩
  · rw [List.replicate_succ]
    rfl
  · simp only [List.all_eq_true, hhead, decide_eq_true_eq]
    intro vol hvol
    rw [(List.eq_of_mem_replicate hvol : vol = w)]
  · have hts : tstats sq (List.replicate (k + 2) w) =
        List.replicate w.length (FP.finite 0) := by
      rw [tstats]
      have hlen : (List.replicate (k + 2) w).length = k + 2 := List.length_replicate _ _
      rw [hlen]
      have : ∀ r ∈ reshaped (List.replicate (k + 2) w), tVox sq (k + 2) r = FP.finite 0 := by
        intro r hr
        obtain ⟨c, rfl⟩ := hrows r hr
        exact tVox_replicate sq hsq (k + 2) (by omega) c
      rw [map_const_replicate _ _ _ this]
      congr 1
      rw [reshaped, List.length_map, List.length_range, hhead]
    have hzs : zstats sq tsf isf (List.replicate (k + 2) w) =
        List.replicate w.length (FP.finite 0) := by
      rw [zstats, hts, List.map_replicate, zVox_zero]
    rw [hts, hzs, List.length_replicate]

theorem claim_C4_witness :
    (∀ r ∈ reshaped (List.replicate 2 [(3:ℚ)]), vstd sqrtW r = 0) ∧
    perform_group_analysis sqrtW tsfW isfW (List.replicate 2 [(3:ℚ)]) =
      some (List.replicate 1 (FP.finite 0), List.replicate 1 (FP.finite 0), 1) :=
  claim_C4_identical_volumes sqrtW tsfW isfW 2 [3] (by norm_num) (by norm_num [sqrtW])

theorem qsign_idem (q : ℚ) : qsign (qsign q) = qsign q := by
  rcases lt_trichotomy q 0 with h | rfl | h
  · rw [qsign_of_neg h]
    norm_num [qsign]
  · rw [qsign_of_zero, qsign_of_zero]
  · rw [qsign_of_pos h]
    norm_num [qsign]

theorem eval_main2 :
    perform_group_analysis sqrtW tsfW isfW [[3], [3], [3], [-1]] =
      some ([FP.finite 2], [FP.finite (1/3)], 3) := by
  have hrow : reshaped [[3], [3], [3], [-1]] = [[(3:ℚ), 3, 3, -1]] := by
    simp [reshaped, List.range_succ]
  have hmean : vmean [(3:ℚ), 3, 3, -1] = 2 := by
    norm_num [vmean]
  have hvar : vvar [(3:ℚ), 3, 3, -1] = 4 := by
    norm_num [vvar, hmean]
  have hse : vse sqrtW 4 [(3:ℚ), 3, 3, -1] = 1 := by
    norm_num [vse, vstd, hvar, sqrtW]
  have ht : tVox sqrtW 4 [(3:ℚ), 3, 3, -1] = FP.finite 2 := by
    rw [tVox, hmean, hse]
    norm_num [qdivFP, nanToNumFP]
  have hz : zVox tsfW isfW 3 (FP.finite 2) = FP.finite (1/3) := by
    have habs : FP.fabs (FP.finite 2) = FP.finite 2 := by
      norm_num [FP.fabs, abs_of_pos]
    have htsf : tsfW (FP.finite 2) 3 = FP.finite (1/6) := by
      rw [tsfW]
      norm_num [abs_of_pos]
    have hp : FP.mul (FP.finite (1/6)) (FP.finite 2) = FP.finite (1/3) := by
      norm_num [FP.mul]
    have hisf : isfW (FP.finite (1/3)) = FP.finite (1/3) := by
      rw [isfW]
      norm_num
    have hsgn : FP.sign (FP.finite 2) = FP.finite 1 := by
      norm_num [FP.sign, qsign]
    rw [zVox, habs, htsf, hp, hisf, hsgn]
    norm_num [FP.mul, nanToNumFP]
  rw [perform_eq_some_iff]
  refine ⟨by norm_num, by norm_num, ?_⟩
  rw [tstats, zstats, tstats, hrow]
  simp only [List.map_cons, List.map_nil, List.length_cons, List.length_nil]
  rw [show ((0:ℕ)+1+1+1+1 : ℕ) = 4 from rfl]
  norm_num [ht, hz]

/-- C1 (as stated, refuted): "for every list of input volumes, at every voxel
the sign of the t-statistic output matches the sign of the z-statistic
output (or both are 0)". False: with the concrete library instantiations
`sqrtW`, `tsfW`, `isfW` (which satisfy all recorded properties of `np.sqrt`,
`scipy.stats.t.sf`, `scipy.stats.norm.isf`) and the four one-voxel volumes
`[5/4], [5/4], [5/4], [-11/4]`, the t-statistic is `1/4 > 0` while the
z-statistic is `-3/5 < 0`: the two-tailed p-value `2*sf(1/4, 3)` exceeds
`1/2`, so the inverse-normal value is negative and the sign-restoration
step flips the result's sign relative to t. -/
theorem claim_C1_counterexample :
    ¬ (∀ (sq : ℚ → ℚ) (tsf : FP → ℤ → FP) (isf : FP → FP),
        SqrtOK sq → TsfOK tsf → IsfOK isf →
        ∀ (volumes : List (List ℚ)) (out : List FP × List FP × ℤ),
          perform_group_analysis sq tsf isf volumes = some out →
          ∀ pr ∈ out.1.zip out.2.1, FP.sign pr.1 = FP.sign pr.2) := by
  intro h
  have hc := h sqrtW tsfW isfW sqrtW_ok tsfW_ok isfW_ok _ _ eval_main
    (FP.finite (1/4), FP.finite (-(3/5))) (by simp)
  simp only [FP.sign] at hc
  rw [qsign_of_pos (by norm_num), qsign_of_neg (by norm_num)] at hc
  exact absurd (FP.finite.injEq _ _ ▸ hc) (by norm_num)

/-- C1 (amended): for K ≥ 2 volumes, at every voxel the t-statistic is a
finite value tq and the z-statistic a finite value zq with
sign(zq) = sign(tq) * sign(1/2 - 2*sf(|tq|, df)): the z-statistic's sign
matches the t-statistic's sign exactly when the two-tailed p-value
2*sf(|t|, df) is below 1/2; when it exceeds 1/2 (small |t|) the signs are
opposite; both are 0 when t = 0 or the p-value equals 1/2. -/
theorem claim_C1_amended (sq : ℚ → ℚ) (tsf : FP → ℤ → FP) (isf : FP → FP)
    (_hsq : SqrtOK sq) (htsf : TsfOK tsf) (hisf : IsfOK isf)
    (volumes : List (List ℚ)) (out : List FP × List FP × ℤ)
    (hK : 2 ≤ volumes.length)
    (h : perform_group_analysis sq tsf isf volumes = some out) :
    ∀ pr ∈ out.1.zip out.2.1, ∃ tq r zq : ℚ,
      pr.1 = FP.finite tq ∧
      tsf (FP.finite |tq|) out.2.2 = FP.finite r ∧
      pr.2 = FP.finite zq ∧
      qsign zq = qsign tq * qsign (1/2 - 2*r) := by
  rw [perform_eq_some_iff] at h
  obtain ⟨-, -, rfl⟩ := h
  dsimp only
  intro pr hpr
  rw [zstats, zip_self_map] at hpr
  simp only [List.mem_map] at hpr
  obtain ⟨t, ht, rfl⟩ := hpr
  simp only [tstats, List.mem_map] at ht
  obtain ⟨xs, -, rfl⟩ := ht
  obtain ⟨tq, htq⟩ := nanToNumFP_finite (qdivFP (vmean xs) (vse sq volumes.length xs))
  rw [tVox, htq]
  have hdf : (1:ℤ) ≤ (volumes.length : ℤ) - 1 := by
    have h2 : (2:ℤ) ≤ (volumes.length : ℤ) := by exact_mod_cast hK
    omega
  obtain ⟨r, hr, hr0, hr12, hriff⟩ :=
    htsf ((volumes.length : ℤ) - 1) |tq| hdf (abs_nonneg tq)
  by_cases htq0 : tq = 0
  · subst htq0
    have hr2 : r = 1/2 := hriff.mpr abs_zero
    subst hr2
    have hz : zVox tsf isf ((volumes.length : ℤ) - 1) (FP.finite 0) = FP.finite 0 :=
      zVox_zero tsf isf _
    refine ⟨0, 1/2, 0, rfl, hr, hz, ?_⟩
    rw [qsign_of_zero, zero_mul]
  · have hrlt : r < 1/2 :=
      lt_of_le_of_ne hr12 (fun he => htq0 (abs_eq_zero.mp (hriff.mp he)))
    have hp0 : 0 < r * 2 := by linarith
    have hp1 : r * 2 < 1 := by linarith
    obtain ⟨z0, hz0, hz0pos, hz0neg⟩ := hisf.1 (r * 2) hp0 hp1
    have hz : zVox tsf isf ((volumes.length : ℤ) - 1) (FP.finite tq) =
        FP.finite (qsign tq * z0) := by
      rw [zVox]
      simp only [FP.fabs]
      rw [hr]
      simp only [FP.mul]
      rw [hz0]
      simp only [FP.sign, FP.mul, nanToNumFP]
    refine ⟨tq, r, qsign tq * z0, rfl, hr, hz, ?_⟩
    rw [qsign_mul, qsign_idem]
    congr 1
    rcases lt_trichotomy (r * 2) (1/2) with hc | hc | hc
    · rw [qsign_of_pos (hz0pos.mpr hc), qsign_of_pos (by linarith)]
    · have hz00 : z0 = 0 := by
        have h1 : ¬ 0 < z0 := fun hh => absurd (hz0pos.mp hh) (by linarith)
        have h2 : ¬ z0 < 0 := fun hh => absurd (hz0neg.mp hh) (by linarith)
        linarith
      rw [hz00, qsign_of_zero, show (1:ℚ)/2 - 2*r = 0 by linarith, qsign_of_zero]
    · rw [qsign_of_neg (hz0neg.mpr hc), qsign_of_neg (by linarith)]

theorem claim_C1_amended_witness :
    ∃ tq r zq : ℚ,
      FP.finite (2:ℚ) = FP.finite tq ∧
      tsfW (FP.finite |tq|) 3 = FP.finite r ∧
      FP.finite ((1:ℚ)/3) = FP.finite zq ∧
      qsign zq = qsign tq * qsign (1/2 - 2*r) :=
  claim_C1_amended sqrtW tsfW isfW sqrtW_ok tsfW_ok isfW_ok _ _ (by norm_num) eval_main2
    (FP.finite 2, FP.finite (1/3)) (by simp)

/-- Whitespace characters removed by Python's `str.strip()`. -/
def isSpaceChar (c : Char) : Bool := c == ' ' || c == '\t' || c == '\n' || c == '\r'

/-- Python's `line.strip()`: removes leading and trailing whitespace. -/
def pyStrip (s : String) : String :=
  String.mk (((s.toList.dropWhile isSpaceChar).reverse.dropWhile isSpaceChar).reverse)

/-- `file_paths = [line.strip() for line in f if line.strip()]`: the stripped
non-blank lines of the manifest, in order. -/
def manifestPaths (lines : List String) : List String :=
  (lines.map pyStrip).filter (fun s => s != "")

/-- The fatal outcomes of `load_files`: `ValueError` for an empty list, and
`sys.exit(1)` after a load failure or after reporting a shape mismatch (the
mismatch report lists each path with its shape, as printed by the loop
`for i, path in enumerate(file_paths): print(path, shapes[i])`). -/
inductive LoadError where
  | emptyList : LoadError
  | loadFail : String → LoadError
  | shapeMismatch : List (String × List ℕ) → LoadError
deriving DecidableEq

/-- The sequential `nib.load` loop: it stops at the first path whose load
raises (`except Exception: ... sys.exit(1)`), modelled by `loadImg` returning
`none`. A loaded image is modelled by its shape, the only attribute
`load_files` goes on to inspect. -/
def loadAll (loadImg : String → Option (List ℕ)) :
    List String → Except String (List (List ℕ))
  | [] => Except.ok []
  | p :: rest =>
    match loadImg p with
    | none => Except.error p
    | some s =>
      match loadAll loadImg rest with
      | Except.error q => Except.error q
      | Except.ok ss => Except.ok (s :: ss)

/-- `load_files(file_list_path)`, after the manifest text has been read into
`lines`: strips and filters the lines, raises `ValueError` when no paths
remain, exits on the first load failure, and exits after reporting every
path with its shape when `len(set(shapes)) > 1`. -/
def load_files (loadImg : String → Option (List ℕ)) (lines : List String) :
    Except LoadError (List (List ℕ)) :=
  if (manifestPaths lines).isEmpty then Except.error LoadError.emptyList
  else
    match loadAll loadImg (manifestPaths lines) with
    | Except.error p => Except.error (LoadError.loadFail p)
    | Except.ok shapes =>
      if 1 < shapes.dedup.length then
        Except.error (LoadError.shapeMismatch ((manifestPaths lines).zip shapes))
      else Except.ok shapes

theorem loadAll_error_mem (loadImg : String → Option (List ℕ)) (l : List String)
    (p : String) (h : loadAll loadImg l = Except.error p) :
    p ∈ l ∧ loadImg p = none := by
  induction l with
  | nil => simp [loadAll] at h
  | cons a rest ih =>
    rw [loadAll] at h
    rcases ha : loadImg a with - | s
    · rw [ha] at h
      obtain rfl : a = p := by injection h
      exact ⟨List.mem_cons_self a rest, ha⟩
    · rw [ha] at h
      rcases hrest : loadAll loadImg rest with q | ss
      · rw [hrest] at h
        obtain rfl : q = p := by injection h
        obtain ⟨h1, h2⟩ := ih hrest
        exact ⟨List.mem_cons_of_mem a h1, h2⟩
      · rw [hrest] at h
        injection h

theorem loadAll_ok_forall₂ (loadImg : String → Option (List ℕ)) (l : List String)
    (ss : List (List ℕ)) (h : loadAll loadImg l = Except.ok ss) :
    List.Forall₂ (fun p s => loadImg p = some s) l ss := by
  induction l generalizing ss with
  | nil =>
    rw [loadAll] at h
    obtain rfl : ([] : List (List ℕ)) = ss := by injection h
    exact List.Forall₂.nil
  | cons a rest ih =>
    rw [loadAll] at h
    rcases ha : loadImg a with - | s
    · rw [ha] at h
      injection h
    · rw [ha] at h
      rcases hrest : loadAll loadImg rest with q | ss2
      · rw [hrest] at h
        injection h
      · rw [hrest] at h
        obtain rfl : s :: ss2 = ss := by injection h
        exact List.Forall₂.cons ha (ih ss2 hrest)

theorem forall₂_mem_left {R : String → List ℕ → Prop} {l : List String}
    {ss : List (List ℕ)} (h : List.Forall₂ R l ss) :
    ∀ p ∈ l, ∃ s, R p s ∧ (p, s) ∈ l.zip ss ∧ s ∈ ss := by
  induction h with
  | nil => simp
  | @cons a b l2 ss2 hR hF ih =>
    intro p hp
    rcases List.mem_cons.mp hp with rfl | hp2
    · exact ⟨b, hR, by simp, by simp⟩
    · obtain ⟨s, hs1, hs2, hs3⟩ := ih p hp2
      exact ⟨s, hs1, by simp [hs2], by simp [hs3]⟩

theorem forall₂_mem_right {R : String → List ℕ → Prop} {l : List String}
    {ss : List (List ℕ)} (h : List.Forall₂ R l ss) :
    ∀ s ∈ ss, ∃ p ∈ l, R p s := by
  induction h with
  | nil => simp
  | @cons a b l2 ss2 hR hF ih =>
    intro s hs
    rcases List.mem_cons.mp hs with rfl | hs2
    · exact ⟨a, by simp, hR⟩
    · obtain ⟨p, hp1, hp2⟩ := ih s hs2
      exact ⟨p, by simp [hp1], hp2⟩

theorem dedup_length_le_one_iff {α : Type} [DecidableEq α] (l : List α) :
    l.dedup.length ≤ 1 ↔ ∀ a ∈ l, ∀ b ∈ l, a = b := by
  constructor
  · intro h a ha b hb
    have ha2 : a ∈ l.dedup := List.mem_dedup.mpr ha
    have hb2 : b ∈ l.dedup := List.mem_dedup.mpr hb
    cases e : l.dedup with
    | nil =>
      rw [e] at ha2
      cases ha2
    | cons x xs =>
      cases hxs : xs with
      | nil =>
        rw [e, hxs] at ha2 hb2
        simp at ha2 hb2
        rw [ha2, hb2]
      | cons y ys =>
        rw [e, hxs] at h
        simp at h
  · intro h
    cases hl : l.dedup with
    | nil => simp
    | cons x xs =>
      cases hxs : xs with
      | nil => simp
      | cons y ys =>
        exfalso
        have hnd := l.nodup_dedup
        rw [hl, hxs] at hnd
        have hx : x ∈ l := List.mem_dedup.mp (by rw [hl]; simp)
        have hy : y ∈ l := List.mem_dedup.mp (by rw [hl, hxs]; simp)
        have hxy : x = y := h x hx y hy
        subst hxy
        simp [List.nodup_cons] at hnd

/-- C5: the manifest loader fails fatally (and does not return a list) in
exactly three cases: zero non-blank paths, some path failing to load, or
inconsistent shapes among the loaded volumes; and in the shape-mismatch case
the report printed before exiting covers every path (in particular every
mismatching one) together with its shape. -/
theorem claim_C5_loader_failures (loadImg : String → Option (List ℕ)) (lines : List String) :
    ((∃ e, load_files loadImg lines = Except.error e) ↔
      (manifestPaths lines = [] ∨
       (∃ p ∈ manifestPaths lines, loadImg p = none) ∨
       (∃ p ∈ manifestPaths lines, ∃ q ∈ manifestPaths lines, loadImg p ≠ loadImg q))) ∧
    (∀ rep, load_files loadImg lines = Except.error (LoadError.shapeMismatch rep) →
      ∀ p ∈ manifestPaths lines, ∃ s, loadImg p = some s ∧ (p, s) ∈ rep) := by
  cases hE : (manifestPaths lines).isEmpty with
  | true =>
    have hnil : manifestPaths lines = [] := by
      cases hc : manifestPaths lines with
      | nil => rfl
      | cons a t => rw [hc] at hE; simp at hE
    constructor
    · constructor
      · intro _
        exact Or.inl hnil
      · intro _
        exact ⟨LoadError.emptyList, by simp [load_files, hE]⟩
    · intro rep hrep
      simp [load_files, hE] at hrep
  | false =>
    have hne : manifestPaths lines ≠ [] := by
      intro hc
      rw [hc] at hE
      simp at hE
    rcases hL : loadAll loadImg (manifestPaths lines) with p | shapes
    · obtain ⟨hp_mem, hp_none⟩ := loadAll_error_mem _ _ _ hL
      constructor
      · constructor
        · intro _
          exact Or.inr (Or.inl ⟨p, hp_mem, hp_none⟩)
        · intro _
          exact ⟨LoadError.loadFail p, by simp [load_files, hE, hL]⟩
      · intro rep hrep
        simp [load_files, hE, hL] at hrep
    · have hF := loadAll_ok_forall₂ _ _ _ hL
      by_cases hD : 1 < shapes.dedup.length
      · have hnotall : ¬ ∀ a ∈ shapes, ∀ b ∈ shapes, a = b := by
          rw [← dedup_length_le_one_iff]
          omega
        push_neg at hnotall
        obtain ⟨a, ha, b, hb, hab⟩ := hnotall
        obtain ⟨pa, hpa, hRa⟩ := forall₂_mem_right hF a ha
        obtain ⟨pb, hpb, hRb⟩ := forall₂_mem_right hF b hb
        constructor
        · constructor
          · intro _
            refine Or.inr (Or.inr ⟨pa, hpa, pb, hpb, ?_⟩)
            rw [hRa, hRb]
            simp [hab]
          · intro _
            exact ⟨LoadError.shapeMismatch ((manifestPaths lines).zip shapes),
              by simp [load_files, hE, hL, hD]⟩
        · intro rep hrep
          simp only [load_files, hE, hL, if_pos hD, Bool.false_eq_true, if_false,
            Except.error.injEq, LoadError.shapeMismatch.injEq] at hrep
          intro pp hpp
          obtain ⟨s, hs1, hs2, -⟩ := forall₂_mem_left hF pp hpp
          exact ⟨s, hs1, hrep ▸ hs2⟩
      · have hall : ∀ a ∈ shapes, ∀ b ∈ shapes, a = b := by
          rw [← dedup_length_le_one_iff]
          omega
        constructor
        · constructor
          · intro ⟨e, he⟩
            simp [load_files, hE, hL, hD] at he
          · intro hRHS
            exfalso
            rcases hRHS with hnil | ⟨p, hp, hnone⟩ | ⟨p, hp, q, hq, hne2⟩
            · exact hne hnil
            · obtain ⟨s, hs, -, -⟩ := forall₂_mem_left hF p hp
              rw [hs] at hnone
              cases hnone
            · obtain ⟨sp, hsp, -, hspmem⟩ := forall₂_mem_left hF p hp
              obtain ⟨sq, hsq, -, hsqmem⟩ := forall₂_mem_left hF q hq
              have : sp = sq := hall sp hspmem sq hsqmem
              rw [hsp, hsq, this] at hne2
              exact hne2 rfl
        · intro rep hrep
          simp [load_files, hE, hL, hD] at hrep

/-- Concrete loader oracle for the C5 witness: path "b" loads with shape
[3], every other path with shape [2,2]. -/
def loadImgW : String → Option (List ℕ) := fun p => if p = "b" then some [3] else some [2, 2]

theorem claim_C5_witness :
    ∃ s, loadImgW "a" = some s ∧ ("a", s) ∈ [("a", [2, 2]), ("b", [3])] :=
  (claim_C5_loader_failures loadImgW ["a", " ", "b"]).2 [("a", [2, 2]), ("b", [3])]
    (by rfl) "a" (by decide)

/-- Prefix test on character lists (helper for Python's substring operator). -/
def listIsPre : List Char → List Char → Bool
  | [], _ => true
  | _ :: _, [] => false
  | a :: s1, b :: s2 => a == b && listIsPre s1 s2

/-- Substring occurrence test on character lists. -/
def hasSubList (sub : List Char) : List Char → Bool
  | [] => listIsPre sub []
  | b :: t => listIsPre sub (b :: t) || hasSubList sub t

/-- Python's substring containment `sub in s`. -/
def pyIn (sub s : String) : Bool := hasSubList sub.toList s.toList

theorem listIsPre_iff (sub s : List Char) : listIsPre sub s = true ↔ sub <+: s := by
  induction sub generalizing s with
  | nil => simp [listIsPre]
  | cons a s1 ih =>
    cases s with
    | nil => simp [listIsPre]
    | cons b s2 =>
      rw [listIsPre, Bool.and_eq_true, beq_iff_eq, ih, List.cons_prefix_cons]

theorem hasSubList_iff (sub s : List Char) : hasSubList sub s = true ↔ sub <:+: s := by
  induction s with
  | nil =>
    rw [hasSubList, listIsPre_iff]
    simp [List.prefix_nil, List.infix_nil]
  | cons b t ih => simp [hasSubList, listIsPre_iff, ih, List.infix_cons_iff]

/-- `create_file_list(registered_files, output_file, contrast_num)`: the list
of lines written to the manifest; with a contrast number it keeps exactly the
paths containing `.cope<N>` or `.zstat<N>`
(`[f for f in registered_files if f".cope{contrast_num}" in f or f".zstat{contrast_num}" in f]`). -/
def create_file_list (registered : List String) (contrast_num : Option ℤ) : List String :=
  match contrast_num with
  | some n =>
    registered.filter
      (fun f => pyIn (".cope" ++ toString n) f || pyIn (".zstat" ++ toString n) f)
  | none => registered

/-- C7: for every list of registered paths and every requested contrast
number N, the contrast-filtered manifest contains exactly those paths (in
input order, being a sublist of the input) that contain the substring
`.cope<N>` or the substring `.zstat<N>`. -/
theorem claim_C7_contrast_filter (registered : List String) (n : ℤ) :
    (∀ p, p ∈ create_file_list registered (some n) ↔
      (p ∈ registered ∧
        ((".cope" ++ toString n).toList <:+: p.toList ∨
         (".zstat" ++ toString n).toList <:+: p.toList))) ∧
    (create_file_list registered (some n)).Sublist registered := by
  constructor
  · intro p
    simp only [create_file_list, List.mem_filter, Bool.or_eq_true, pyIn, hasSubList_iff]
  · exact List.filter_sublist _

/-- Python's `f"{n:02d}"` for the subject numbers used here. -/
def pad2 (n : ℕ) : String := if n < 10 then "0" ++ toString n else toString n

/-- `subject_id = f"sub-{subject_num:02d}"`. -/
def subjectId (n : ℕ) : String := "sub-" ++ pad2 n

/-- `os.path.join` for the path fragments used here. -/
def pathJoin (a b : String) : String := a ++ "/" ++ b

/-- `subject_numbers = [n for n in range(1, 33) if n not in [15, 26]]`. -/
def subject_numbers : List ℕ :=
  (List.range' 1 32).filter (fun n => !([15, 26].contains n))

/-- `contrast_pattern = os.path.join(input_dir, subject_id, f"*{contrast_type}*.nii.gz")`. -/
def contrastPattern (input_dir ct : String) (n : ℕ) : String :=
  pathJoin (pathJoin input_dir (subjectId n)) ("*" ++ ct ++ "*.nii.gz")

/-- `transform_pattern = os.path.join(input_dir, subject_id, "*.mat")`. -/
def transformPattern (input_dir : String) (n : ℕ) : String :=
  pathJoin (pathJoin input_dir (subjectId n)) "*.mat"

/-- `os.path.basename` for the slash-separated paths used here. -/
def basename (s : String) : String := (s.splitOn "/").getLastD s

/-- `output_file = os.path.join(output_dir, f"{subject_id}_{contrast_name}")`. -/
def outPath (output_dir : String) (n : ℕ) (f : String) : String :=
  pathJoin output_dir (subjectId n ++ "_" ++ basename f)

/-- The FLIRT command line built for one contrast file. -/
def flirtCmd (f standard tf out : String) : List String :=
  ["flirt", "-in", f, "-ref", standard, "-applyxfm", "-init", tf, "-out", out]

/-- Body of the inner `for contrast_file in contrast_files` loop for one
file: if the output exists it is reused (no command run); otherwise the
external command is invoked and the output is recorded only on success.
First component: additions to `registered_files`; second component: external
commands invoked. -/
def fileStep (pathEx : String → Bool) (runOk : List String → Bool)
    (output_dir standard tf : String) (n : ℕ) (f : String) :
    List String × List (List String) :=
  if pathEx (outPath output_dir n f) then ([outPath output_dir n f], [])
  else
    if runOk (flirtCmd f standard tf (outPath output_dir n f)) then
      ([outPath output_dir n f], [flirtCmd f standard tf (outPath output_dir n f)])
    else ([], [flirtCmd f standard tf (outPath output_dir n f)])

/-- The inner loop over a subject's contrast files, accumulating in order. -/
def filesLoop (pathEx : String → Bool) (runOk : List String → Bool)
    (output_dir standard tf : String) (n : ℕ) :
    List String → List String × List (List String)
  | [] => ([], [])
  | f :: rest =>
    ((fileStep pathEx runOk output_dir standard tf n f).1 ++
       (filesLoop pathEx runOk output_dir standard tf n rest).1,
     (fileStep pathEx runOk output_dir standard tf n f).2 ++
       (filesLoop pathEx runOk output_dir standard tf n rest).2)

/-- One iteration of the outer subject loop: missing contrast files or a
missing transformation matrix make the iteration a no-op (`continue`);
otherwise the first transform found is used for every contrast file. -/
def subjectStep (g : String → List String) (pathEx : String → Bool)
    (runOk : List String → Bool) (input_dir output_dir standard ct : String)
    (n : ℕ) : List String × List (List String) :=
  if (g (contrastPattern input_dir ct n)).isEmpty then ([], [])
  else
    match g (transformPattern input_dir n) with
    | [] => ([], [])
    | tf :: _ =>
      filesLoop pathEx runOk output_dir standard tf n (g (contrastPattern input_dir ct n))

/-- The outer loop over the subject roster. -/
def subjectsLoop (g : String → List String) (pathEx : String → Bool)
    (runOk : List String → Bool) (input_dir output_dir standard ct : String) :
    List ℕ → List String × List (List String)
  | [] => ([], [])
  | n :: rest =>
    ((subjectStep g pathEx runOk input_dir output_dir standard ct n).1 ++
       (subjectsLoop g pathEx runOk input_dir output_dir standard ct rest).1,
     (subjectStep g pathEx runOk input_dir output_dir standard ct n).2 ++
       (subjectsLoop g pathEx runOk input_dir output_dir standard ct rest).2)

/-- `register_to_standard(input_dir, output_dir, standard_brain, contrast_type)`:
first component is the returned `registered_files` list; second component is
the trace of external commands passed to `subprocess.run`, in order.
`g` models `glob.glob`, `pathEx` models `os.path.exists`, and `runOk` models
whether `subprocess.run(cmd, check=True)` succeeds. -/
def register_to_standard (g : String → List String) (pathEx : String → Bool)
    (runOk : List String → Bool) (input_dir output_dir standard ct : String) :
    List String × List (List String) :=
  subjectsLoop g pathEx runOk input_dir output_dir standard ct subject_numbers

/-- C8: the registration driver iterates exactly over subjects 1..32
excluding 15 and 26; a subject with no contrast files or no transformation
matrix contributes nothing and the loop continues with the remaining
subjects; within a subject the files are processed one after another, and a
failing external command contributes no registered file but does not stop
the remaining files or subjects. -/
theorem claim_C8_driver_localized_failures :
    (subject_numbers =
      [1, 2, 3, 4, 5, 6, 7, 8, 9, 10, 11, 12, 13, 14, 16, 17, 18, 19, 20, 21,
       22, 23, 24, 25, 27, 28, 29, 30, 31, 32]) ∧
    (∀ (g : String → List String) (pathEx : String → Bool) (runOk : List String → Bool)
       (input_dir output_dir standard ct : String) (n : ℕ) (rest : List ℕ),
      subjectsLoop g pathEx runOk input_dir output_dir standard ct (n :: rest) =
        ((subjectStep g pathEx runOk input_dir output_dir standard ct n).1 ++
           (subjectsLoop g pathEx runOk input_dir output_dir standard ct rest).1,
         (subjectStep g pathEx runOk input_dir output_dir standard ct n).2 ++
           (subjectsLoop g pathEx runOk input_dir output_dir standard ct rest).2)) ∧
    (∀ (g : String → List String) (pathEx : String → Bool) (runOk : List String → Bool)
       (input_dir output_dir standard ct : String) (n : ℕ),
      g (contrastPattern input_dir ct n) = [] →
      subjectStep g pathEx runOk input_dir output_dir standard ct n = ([], [])) ∧
    (∀ (g : String → List String) (pathEx : String → Bool) (runOk : List String → Bool)
       (input_dir output_dir standard ct : String) (n : ℕ),
      g (transformPattern input_dir n) = [] →
      subjectStep g pathEx runOk input_dir output_dir standard ct n = ([], [])) ∧
    (∀ (pathEx : String → Bool) (runOk : List String → Bool)
       (output_dir standard tf : String) (n : ℕ) (f : String) (rest : List String),
      filesLoop pathEx runOk output_dir standard tf n (f :: rest) =
        ((fileStep pathEx runOk output_dir standard tf n f).1 ++
           (filesLoop pathEx runOk output_dir standard tf n rest).1,
         (fileStep pathEx runOk output_dir standard tf n f).2 ++
           (filesLoop pathEx runOk output_dir standard tf n rest).2)) ∧
    (∀ (pathEx : String → Bool) (runOk : List String → Bool)
       (output_dir standard tf : String) (n : ℕ) (f : String),
      pathEx (outPath output_dir n f) = false →
      runOk (flirtCmd f standard tf (outPath output_dir n f)) = false →
      fileStep pathEx runOk output_dir standard tf n f =
        ([], [flirtCmd f standard tf (outPath output_dir n f)])) := by
  refine ⟨by decide, fun _ _ _ _ _ _ _ _ _ => rfl, ?_, ?_, fun _ _ _ _ _ _ _ _ => rfl, ?_⟩
  · intro g pathEx runOk input_dir output_dir standard ct n h
    simp [subjectStep, h]
  · intro g pathEx runOk input_dir output_dir standard ct n h
    rw [subjectStep, h]
    split <;> rfl
  · intro pathEx runOk output_dir standard tf n f h1 h2
    simp [fileStep, h1, h2]

theorem claim_C8_witness :
    subjectStep (fun _ => []) (fun _ => true) (fun _ => true) "i" "o" "s" "cope" 1 =
      ([], []) :=
  claim_C8_driver_localized_failures.2.2.1 (fun _ => []) (fun _ => true) (fun _ => true)
    "i" "o" "s" "cope" 1 rfl

theorem filesLoop_mem (pathEx : String → Bool) (runOk : List String → Bool)
    (output_dir standard tf : String) (n : ℕ) (files : List String) (f : String)
    (hf : f ∈ files) (hex : pathEx (outPath output_dir n f) = true) :
    outPath output_dir n f ∈ (filesLoop pathEx runOk output_dir standard tf n files).1 := by
  induction files with
  | nil => cases hf
  | cons a rest ih =>
    rw [filesLoop]
    rcases List.mem_cons.mp hf with rfl | hrest
    · apply List.mem_append_left
      rw [fileStep, if_pos hex]
      simp
    · exact List.mem_append_right _ (ih hrest)

theorem subjectsLoop_mem (g : String → List String) (pathEx : String → Bool)
    (runOk : List String → Bool) (input_dir output_dir standard ct : String)
    (ns : List ℕ) (n : ℕ) (hn : n ∈ ns) (x : String)
    (hx : x ∈ (subjectStep g pathEx runOk input_dir output_dir standard ct n).1) :
    x ∈ (subjectsLoop g pathEx runOk input_dir output_dir standard ct ns).1 := by
  induction ns with
  | nil => cases hn
  | cons a rest ih =>
    rw [subjectsLoop]
    rcases List.mem_cons.mp hn with rfl | hrest
    · exact List.mem_append_left _ hx
    · exact List.mem_append_right _ (ih hrest)

/-- C9: for a contrast file whose output path already exists, processing that
file invokes no external command yet records the existing output path, and
that path appears in the list returned by the registration driver. -/
theorem claim_C9_existing_output (g : String → List String) (pathEx : String → Bool)
    (runOk : List String → Bool) (input_dir output_dir standard ct : String)
    (n : ℕ) (f tf : String) (tfrest : List String)
    (hn : n ∈ subject_numbers)
    (hf : f ∈ g (contrastPattern input_dir ct n))
    (htf : g (transformPattern input_dir n) = tf :: tfrest)
    (hex : pathEx (outPath output_dir n f) = true) :
    fileStep pathEx runOk output_dir standard tf n f = ([outPath output_dir n f], []) ∧
    outPath output_dir n f ∈
      (register_to_standard g pathEx runOk input_dir output_dir standard ct).1 := by
  constructor
  · rw [fileStep, if_pos hex]
  · rw [register_to_standard]
    apply subjectsLoop_mem g pathEx runOk input_dir output_dir standard ct
      subject_numbers n hn
    rw [subjectStep]
    have hne : ¬ (g (contrastPattern input_dir ct n)).isEmpty = true := by
      cases hc : g (contrastPattern input_dir ct n) with
      | nil =>
        rw [hc] at hf
        cases hf
      | cons a t => simp [hc]
    rw [if_neg hne, htf]
    exact filesLoop_mem pathEx runOk output_dir standard tf n _ f hf hex

/-- Concrete glob oracle for the C9 witness: subject 1 has one cope file and
one transformation matrix. -/
def gW : String → List String := fun s =>
  if s = contrastPattern "i" "cope" 1 then ["i/sub-01/x.cope1.nii.gz"]
  else if s = transformPattern "i" 1 then ["i/sub-01/t.mat"] else []

theorem claim_C9_witness :
    fileStep (fun _ => true) (fun _ => true) "o" "s" "i/sub-01/t.mat" 1
        "i/sub-01/x.cope1.nii.gz" =
      ([outPath "o" 1 "i/sub-01/x.cope1.nii.gz"], []) ∧
    outPath "o" 1 "i/sub-01/x.cope1.nii.gz" ∈
      (register_to_standard gW (fun _ => true) (fun _ => true) "i" "o" "s" "cope").1 :=
  claim_C9_existing_output gW (fun _ => true) (fun _ => true) "i" "o" "s" "cope" 1
    "i/sub-01/x.cope1.nii.gz" "i/sub-01/t.mat" [] (by decide) (by decide) (by decide) rfl
